import Mathlib

/-!
Verification of the TrueReach email-validation core
(`src/lib/email-validation.ts`).

Strings are modelled as Lean `String` (lists of characters); the JavaScript
`String.prototype.split(sep)` with a one-character separator is modelled by
`splitOnChar`, `toLowerCase` by a character-wise ASCII lower-casing, and the
two regular expressions of the source (domain-label grammar and the
all-alphabetic TLD test) by executable label predicates.  JavaScript numeric
arithmetic in the scoring function is modelled with exact rationals;
`Math.round` is round-half-up (`jsRound`).  The three network probes use
`Math.random()` in the source; each probe takes its random draw's Boolean
outcome as an explicit oracle parameter.
-/

namespace TrueReach

/-- ASCII alphanumeric, the `[a-zA-Z0-9]` character class of the source. -/
def isAlnumChar (c : Char) : Bool := c.isAlpha || c.isDigit

/-- The `[a-zA-Z0-9-]` character class of the domain-label regex. -/
def isLabelChar (c : Char) : Bool := isAlnumChar c || c == '-'

/-- JavaScript `str.split(sep)` for a single-character separator:
always returns at least one (possibly empty) field. -/
def splitOnChar (sep : Char) : List Char → List (List Char)
  | [] => [[]]
  | c :: rest =>
    if c = sep then [] :: splitOnChar sep rest
    else
      match splitOnChar sep rest with
      | [] => [[c]]
      | f :: fs => (c :: f) :: fs

/-- Character-wise lower-casing, modelling `toLowerCase` on ASCII data. -/
def lowerL (l : List Char) : List Char := l.map Char.toLower

/-- One label of the source's domain regex
`[a-zA-Z0-9]([a-zA-Z0-9-]{0,61}[a-zA-Z0-9])?`:
a single alphanumeric character, or an alphanumeric character followed by at
most 61 label characters and a final alphanumeric character. -/
def validLabel : List Char → Bool
  | [] => false
  | [c] => isAlnumChar c
  | c :: rest =>
    isAlnumChar c && decide (rest.length ≤ 62) &&
    rest.dropLast.all isLabelChar &&
    (match rest.getLast? with
     | none => false
     | some d => isAlnumChar d)

/-- Modelled from the spec: `validateEmailSyntax` in the source delegates to
the third-party zod email schema, whose code is not part of this repository.
Per the spec the grammar is: a local part of one or more characters from the
RFC 5322 set, exactly one `@`, and a domain of one or more dot-separated
labels, each label 1-63 characters, alphanumeric with internal hyphens only. -/
def validateEmailSyntax (email : String) : Bool :=
  match splitOnChar '@' email.data with
  | [localPart, domainPart] =>
    !localPart.isEmpty &&
    localPart.all (fun c => isAlnumChar c || (".!#$%&'*+/=?^_`{|}~-").data.contains c) &&
    (splitOnChar '.' domainPart).all validLabel
  | _ => false

/-- `validateDomain` from the source: requires an `@`, takes the field
`email.split('@')[1]`, tests it against the domain-label regex, and finally
requires the last dot-separated segment (the TLD) to have length at least 2
and match `/^[a-zA-Z]+$/`. -/
def validateDomain (email : String) : Bool :=
  if !(email.data.contains '@') then false
  else
    let domain := (splitOnChar '@' email.data).getD 1 []
    if domain = [] then false
    else if !((splitOnChar '.' domain).all validLabel) then false
    else
      let parts := splitOnChar '.' domain
      let tld := parts.getLastD []
      decide (2 ≤ tld.length) && (!tld.isEmpty && tld.all (fun c => c.isAlpha))

/-- The fixed deny-list of disposable-email domains from the source. -/
def disposableDomains : List String :=
  ["10minutemail.com", "guerrillamail.com", "mailinator.com", "tempmail.org",
   "throwaway.email", "temp-mail.org", "yopmail.com", "maildrop.cc",
   "sharklasers.com", "guerrillamailblock.com", "pokemail.net", "spam4.me",
   "tempail.com", "tempmailaddress.com", "emailondeck.com", "mohmal.com",
   "mytrashmail.com", "mailnesia.com", "trashmail.com", "dispostable.com"]

/-- `isDisposableEmail` from the source:
`email.split('@')[1]?.toLowerCase()`, false if that is undefined or empty,
otherwise membership in the deny-list. -/
def isDisposableEmail (email : String) : Bool :=
  let domain := lowerL ((splitOnChar '@' email.data).getD 1 [])
  if domain = [] then false
  else disposableDomains.contains (String.mk domain)

/-- The fixed list of role-account local-part prefixes from the source. -/
def roleBasedPrefixes : List String :=
  ["admin", "administrator", "info", "support", "sales", "contact", "help",
   "noreply", "no-reply", "webmaster", "postmaster", "hostmaster", "abuse",
   "security", "privacy", "legal", "billing", "accounts", "marketing",
   "hr", "careers", "jobs", "recruitment", "press", "media", "news"]

/-- `isRoleBasedEmail` from the source: lower-case `email.split('@')[0]`,
false if empty, otherwise true when some listed role matches exactly or as a
prefix followed by a dot or a hyphen. -/
def isRoleBasedEmail (email : String) : Bool :=
  let localPart := lowerL ((splitOnChar '@' email.data).getD 0 [])
  if localPart = [] then false
  else
    roleBasedPrefixes.any (fun p =>
      localPart == p.data ||
      (p.data ++ ['.']).isPrefixOf localPart ||
      (p.data ++ ['-']).isPrefixOf localPart)

/-- Domains for which the simulated MX check always succeeds. -/
def commonDomains : List String :=
  ["gmail.com", "yahoo.com", "hotmail.com", "outlook.com", "aol.com",
   "icloud.com", "protonmail.com", "zoho.com", "mail.com", "gmx.com"]

/-- `simulateMXCheck` from the source; `rand` is the outcome of the source's
`Math.random() > 0.15` draw for non-common domains. -/
def simulateMXCheck (rand : Bool) (domain : String) : Bool :=
  if commonDomains.contains (String.mk (lowerL domain.data)) then true
  else rand

/-- Domains the simulated catch-all detection always reports as catch-all. -/
def catchAllDomains : List String := ["example.com", "test.com", "demo.com"]

/-- `simulateCatchAllDetection` from the source; `rand` is the outcome of the
source's `Math.random() < 0.2` draw for other domains. -/
def simulateCatchAllDetection (rand : Bool) (domain : String) : Bool :=
  if catchAllDomains.contains (String.mk (lowerL domain.data)) then true
  else rand

/-- `simulateSMTPCheck` from the source: false when no domain is extractable,
otherwise a random draw (whose threshold depends on whether the domain is a
reliable provider; either way the outcome is the oracle `rand`). -/
def simulateSMTPCheck (rand : Bool) (email : String) : Bool :=
  let domain := lowerL ((splitOnChar '@' email.data).getD 1 [])
  if domain = [] then false
  else rand

/-- The record of the seven Boolean validation signals
(the argument of `calculateEmailScore` in the source; the source's field
`syntax` is named `okSyntax` here because `syntax` is reserved in Lean). -/
structure CheckSignals where
  okSyntax : Bool
  domain : Bool
  mx : Bool
  disposable : Bool
  roleBased : Bool
  catchAll : Bool
  smtp : Bool
deriving DecidableEq

def wSyntax : Int := 20
def wDomain : Int := 15
def wMx : Int := 15
def wDisposable : Int := -10
def wRoleBased : Int := -5
def wCatchAll : Int := -5
def wSmtp : Int := 25

/-- JavaScript `Math.round`: round half toward positive infinity. -/
def jsRound (q : ℚ) : Int := ⌊q + 1 / 2⌋

/-- `calculateEmailScore` from the source: add each weight whose signal is
true, then `Math.round(Math.max(0, Math.min(100, score / maxPossible * 100)))`
with `maxPossible` the sum of the four positive weights. -/
def calculateEmailScore (v : CheckSignals) : Int :=
  let score : Int :=
    (if v.okSyntax then wSyntax else 0) +
    (if v.domain then wDomain else 0) +
    (if v.mx then wMx else 0) +
    (if v.disposable then wDisposable else 0) +
    (if v.roleBased then wRoleBased else 0) +
    (if v.catchAll then wCatchAll else 0) +
    (if v.smtp then wSmtp else 0)
  let maxPossibleScore : Int := wSyntax + wDomain + wMx + wSmtp
  let normalizedScore : ℚ :=
    max 0 (min 100 ((score : ℚ) / (maxPossibleScore : ℚ) * 100))
  jsRound normalizedScore

/-- The three-way verdict of `getEmailStatus`. -/
inductive EmailStatus where
  | valid
  | risky
  | invalid
deriving DecidableEq

/-- `getEmailStatus` from the source. -/
def getEmailStatus (score : Int) : EmailStatus :=
  if score ≥ 75 then .valid
  else if score ≥ 40 then .risky
  else .invalid

/-- The record returned by `validateEmail` in the source. -/
structure ValidationResult where
  email : String
  okSyntax : Bool
  domain : Bool
  mx : Bool
  disposable : Bool
  roleBased : Bool
  catchAll : Bool
  smtp : Bool
  score : Int
  status : EmailStatus
deriving DecidableEq

/-- `validateEmail` from the source.  `rMx`, `rCatchAll` and `rSmtp` are the
Boolean outcomes of the three probes' `Math.random()` draws. -/
def validateEmail (rMx rCatchAll rSmtp : Bool) (email : String) :
    ValidationResult :=
  let syn := validateEmailSyntax email
  if !syn then
    { email := email, okSyntax := false, domain := false, mx := false,
      disposable := false, roleBased := false, catchAll := false,
      smtp := false, score := 0, status := .invalid }
  else
    let domainStr : String := String.mk ((splitOnChar '@' email.data).getD 1 [])
    let domainValid := validateDomain email
    let mx := if domainValid then simulateMXCheck rMx domainStr else false
    let disposable := isDisposableEmail email
    let roleBased := isRoleBasedEmail email
    let catchAll :=
      if domainValid then simulateCatchAllDetection rCatchAll domainStr
      else false
    let smtp := if mx && !disposable then simulateSMTPCheck rSmtp email else false
    let signals : CheckSignals :=
      { okSyntax := syn, domain := domainValid, mx := mx,
        disposable := disposable, roleBased := roleBased,
        catchAll := catchAll, smtp := smtp }
    let score := calculateEmailScore signals
    { email := email, okSyntax := syn, domain := domainValid, mx := mx,
      disposable := disposable, roleBased := roleBased, catchAll := catchAll,
      smtp := smtp, score := score, status := getEmailStatus score }

/-! ### Spec-side definitions

These definitions restate the spec's (and the claims') wording of the
extraction and matching steps, independently of the `split`-based source
code, so that the claims can be compared against the source functions. -/

/-- The characters of `l` strictly before the first occurrence of `sep`
(all of `l` when `sep` does not occur). -/
def upTo (sep : Char) (l : List Char) : List Char :=
  l.takeWhile (fun c => c != sep)

/-- The characters of `l` strictly after the first occurrence of `sep`
(empty when `sep` does not occur). -/
def past (sep : Char) (l : List Char) : List Char :=
  (l.dropWhile (fun c => c != sep)).tail

/-- The characters between the first and the second occurrence of `'@'`
(after the first `'@'` up to the end when it occurs once).  This is the
field `email.split('@')[1]` of the source. -/
def fieldAfterFirstAt (l : List Char) : List Char := upTo '@' (past '@' l)

/-- The characters strictly after the last occurrence of `'@'`. -/
def afterLastAt (l : List Char) : List Char := (upTo '@' l.reverse).reverse

/-- The spec's description of one domain label: 1-63 characters, each
alphanumeric or a hyphen, with an alphanumeric first and last character
(so no leading or trailing hyphen). -/
def specLabel (l : List Char) : Prop :=
  l ≠ [] ∧ l.length ≤ 63 ∧ (∀ c ∈ l, isAlnumChar c = true ∨ c = '-') ∧
  (∀ c, l.head? = some c → isAlnumChar c = true) ∧
  (∀ c, l.getLast? = some c → isAlnumChar c = true)

/-- The claim's tri-mode role match: the local part equals the role `p`, or
starts with `p` followed by a dot, or starts with `p` followed by a hyphen. -/
def roleMatches (lp : List Char) (p : String) : Prop :=
  lp = p.data ∨ (p.data ++ ['.']) <+: lp ∨ (p.data ++ ['-']) <+: lp

/-- The Disposable Provider Detector as the claim words it: the domain is the
substring after the LAST `'@'`, lower-cased, tested against the deny-list;
false when no domain is extractable. -/
def claimDisposableCheck (email : String) : Bool :=
  if !(email.data.contains '@') then false
  else
    let d := lowerL (afterLastAt email.data)
    if d = [] then false else disposableDomains.contains (String.mk d)

/-- The Domain Structural Checker as the claim words it: the domain is the
entire substring after the FIRST `'@'`; it must be dot-separated valid labels
with a TLD of length at least 2 made of letters. -/
def claimDomainCheck (email : String) : Bool :=
  if !(email.data.contains '@') then false
  else
    let d := past '@' email.data
    if d = [] then false
    else
      let parts := splitOnChar '.' d
      parts.all validLabel &&
        (decide (2 ≤ (parts.getLastD []).length) &&
         (parts.getLastD []).all (fun c => c.isAlpha))

/-- The spec's raw score: the sum of the weights of the true signals. -/
def rawScore (v : CheckSignals) : Int :=
  (if v.okSyntax then wSyntax else 0) +
  (if v.domain then wDomain else 0) +
  (if v.mx then wMx else 0) +
  (if v.disposable then wDisposable else 0) +
  (if v.roleBased then wRoleBased else 0) +
  (if v.catchAll then wCatchAll else 0) +
  (if v.smtp then wSmtp else 0)

/-- The spec's normalization: `round(clamp(S, 0, 75) / 75 * 100)`. -/
def specScore (v : CheckSignals) : Int :=
  jsRound (((min 75 (max 0 (rawScore v)) : Int) : ℚ) / 75 * 100)

/-! ### Infrastructure lemmas about `splitOnChar` -/

theorem splitOnChar_ne_nil (sep : Char) (l : List Char) :
    splitOnChar sep l ≠ [] := by
  induction l with
  | nil => simp [splitOnChar]
  | cons c rest ih =>
    simp only [splitOnChar]
    split
    · simp
    · split <;> simp

theorem splitOnChar_getD0 (sep : Char) (l : List Char) :
    (splitOnChar sep l).getD 0 [] = upTo sep l := by
  induction l with
  | nil => simp [splitOnChar, upTo]
  | cons c rest ih =>
    simp only [splitOnChar, upTo, List.takeWhile]
    by_cases h : c = sep
    · simp [h]
    · have hb : (c != sep) = true := bne_iff_ne.mpr h
      simp only [if_neg h, hb]
      cases hs : splitOnChar sep rest with
      | nil => exact absurd hs (splitOnChar_ne_nil sep rest)
      | cons f fs =>
        simp only [List.getD_cons_zero]
        rw [hs] at ih
        simp only [List.getD_cons_zero] at ih
        simp [ih, upTo]

theorem splitOnChar_of_not_mem {sep : Char} {l : List Char} (h : sep ∉ l) :
    splitOnChar sep l = [l] := by
  induction l with
  | nil => simp [splitOnChar]
  | cons c rest ih =>
    simp only [List.mem_cons, not_or] at h
    simp only [splitOnChar, if_neg (Ne.symm h.1)]
    rw [ih h.2]

theorem upTo_of_not_mem {sep : Char} {l : List Char} (h : sep ∉ l) :
    upTo sep l = l := by
  apply List.takeWhile_eq_self_iff.mpr
  intro c hc
  exact bne_iff_ne.mpr (fun he => h (he ▸ hc))

theorem past_of_not_mem {sep : Char} {l : List Char} (h : sep ∉ l) :
    past sep l = [] := by
  unfold past
  have : l.dropWhile (fun c => c != sep) = [] := by
    apply List.dropWhile_eq_nil_iff.mpr
    intro c hc
    exact bne_iff_ne.mpr (fun he => h (he ▸ hc))
  rw [this]
  rfl

theorem splitOnChar_getD1_of_mem {sep : Char} {l : List Char} (h : sep ∈ l) :
    (splitOnChar sep l).getD 1 [] = upTo sep (past sep l) := by
  induction l with
  | nil => cases h
  | cons c rest ih =>
    simp only [splitOnChar]
    by_cases hc : c = sep
    · simp only [if_pos hc, List.getD_cons_succ, splitOnChar_getD0]
      unfold upTo past
      have hb : (c != sep) = false := by simp [hc]
      simp [List.dropWhile, hb]
    · have hmem : sep ∈ rest := by
        cases List.mem_cons.mp h with
        | inl he => exact absurd he.symm hc
        | inr hr => exact hr
      have hb : (c != sep) = true := bne_iff_ne.mpr hc
      simp only [if_neg hc]
      cases hs : splitOnChar sep rest with
      | nil => exact absurd hs (splitOnChar_ne_nil sep rest)
      | cons f fs =>
        simp only [List.getD_cons_succ]
        rw [hs] at ih
        simp only [List.getD_cons_succ] at ih
        rw [ih hmem]
        unfold upTo past
        simp [List.dropWhile, hb]

theorem contains_iff {l : List Char} {c : Char} :
    l.contains c = true ↔ c ∈ l := List.elem_iff

theorem containsStr_iff {l : List String} {s : String} :
    l.contains s = true ↔ s ∈ l := List.elem_iff

theorem isLabelChar_iff {c : Char} :
    isLabelChar c = true ↔ isAlnumChar c = true ∨ c = '-' := by
  simp [isLabelChar]

/-- The source's label regex accepts exactly the labels described by the
spec: 1-63 alphanumeric-or-hyphen characters, no leading or trailing
hyphen. -/
theorem validLabel_iff_specLabel (l : List Char) :
    validLabel l = true ↔ specLabel l := by
  match l with
  | [] =>
    simp [validLabel, specLabel]
  | [c] =>
    simp only [validLabel, specLabel]
    constructor
    · intro h
      refine ⟨by simp, by simp, ?_, ?_, ?_⟩
      · intro x hx
        simp only [List.mem_singleton] at hx
        exact Or.inl (hx ▸ h)
      · intro x hx
        simp only [List.head?_cons, Option.some.injEq] at hx
        exact hx ▸ h
      · intro x hx
        simp only [List.getLast?_singleton, Option.some.injEq] at hx
        exact hx ▸ h
    · rintro ⟨-, -, -, hh, -⟩
      exact hh c (by simp)
  | c :: d :: rest =>
    have hne : d :: rest ≠ [] := by simp
    have hsplit : (d :: rest).dropLast ++ [(d :: rest).getLast hne] = d :: rest :=
      List.dropLast_append_getLast hne
    simp only [validLabel, specLabel, Bool.and_eq_true, decide_eq_true_eq,
      List.all_eq_true]
    rw [List.getLast?_eq_getLast _ hne]
    constructor
    · rintro ⟨⟨⟨hc, hlen⟩, hmid⟩, hlast⟩
      refine ⟨by simp, by simp only [List.length_cons] at hlen ⊢; omega, ?_, ?_, ?_⟩
      · intro x hx
        rcases List.mem_cons.mp hx with he | hx2
        · exact Or.inl (he ▸ hc)
        · rw [← hsplit] at hx2
          rcases List.mem_append.mp hx2 with hm | hl
          · exact isLabelChar_iff.mp (hmid x hm)
          · simp only [List.mem_singleton] at hl
            exact Or.inl (hl ▸ hlast)
      · intro x hx
        simp only [List.head?_cons, Option.some.injEq] at hx
        exact hx ▸ hc
      · intro x hx
        rw [List.getLast?_cons_cons, List.getLast?_eq_getLast _ hne] at hx
        simp only [Option.some.injEq] at hx
        exact hx ▸ hlast
    · rintro ⟨-, hlen, hall, hh, hl⟩
      have hc : isAlnumChar c = true := hh c (by simp)
      have hlast : isAlnumChar ((d :: rest).getLast hne) = true := by
        apply hl
        rw [List.getLast?_cons_cons, List.getLast?_eq_getLast _ hne]
      refine ⟨⟨⟨hc, ?_⟩, ?_⟩, hlast⟩
      · simp only [List.length_cons] at hlen ⊢; omega
      · intro x hx
        have hx2 : x ∈ d :: rest := by
          rw [← hsplit]
          exact List.mem_append.mpr (Or.inl hx)
        rcases hall x (List.mem_cons.mpr (Or.inr hx2)) with ha | hh2
        · exact isLabelChar_iff.mpr (Or.inl ha)
        · exact isLabelChar_iff.mpr (Or.inr hh2)

theorem lowerL_append (a b : List Char) :
    lowerL (a ++ b) = lowerL a ++ lowerL b := by
  simp [lowerL]

theorem lowerL_prefix {a b : List Char} (h : a <+: b) :
    lowerL a <+: lowerL b := List.IsPrefix.map Char.toLower h

/-! ### Scoring helper lemmas -/

/-- Clamping after scaling (as the source does) agrees with scaling after
clamping (as the spec words it), for sums below the maximum 75. -/
theorem clamp_norm_eq {S : Int} (h1 : S ≤ 75) :
    max 0 (min 100 ((S : ℚ) / 75 * 100)) =
      ((min 75 (max 0 S) : Int) : ℚ) / 75 * 100 := by
  have hx : (S : ℚ) / 75 * 100 = (S : ℚ) * (4 / 3) := by ring
  rcases le_or_lt S 0 with hS | hS
  · have hc : (S : ℚ) ≤ 0 := by exact_mod_cast hS
    have hx0 : (S : ℚ) / 75 * 100 ≤ 0 := by rw [hx]; linarith
    rw [min_eq_right (le_trans hx0 (by norm_num)), max_eq_left hx0]
    rw [max_eq_left hS, min_eq_right (by norm_num : (0 : Int) ≤ 75)]
    norm_num
  · have hc : (0 : ℚ) ≤ (S : ℚ) := by exact_mod_cast le_of_lt hS
    have hc75 : (S : ℚ) ≤ 75 := by exact_mod_cast h1
    have hx100 : (S : ℚ) / 75 * 100 ≤ 100 := by rw [hx]; linarith
    have hx0 : 0 ≤ (S : ℚ) / 75 * 100 := by rw [hx]; linarith
    rw [min_eq_right hx100, max_eq_right hx0]
    rw [max_eq_right (le_of_lt hS), min_eq_right h1]

/-- The source's scoring function, rewritten with its internal sum exposed
as `rawScore`. -/
theorem calculateEmailScore_eq_jsRound (v : CheckSignals) :
    calculateEmailScore v =
      jsRound (max 0 (min 100 ((rawScore v : ℚ) / 75 * 100))) := by
  simp only [calculateEmailScore, rawScore, wSyntax, wDomain, wMx, wDisposable,
    wRoleBased, wCatchAll, wSmtp]
  norm_num

theorem rawScore_le (v : CheckSignals) : rawScore v ≤ 75 := by
  unfold rawScore wSyntax wDomain wMx wDisposable wRoleBased wCatchAll wSmtp
  split_ifs <;> omega

theorem jsRound_mono {x y : ℚ} (h : x ≤ y) : jsRound x ≤ jsRound y :=
  Int.floor_le_floor (by linarith)

/-- Monotonicity of the normalized score in the raw sum. -/
theorem normScore_mono {s t : Int} (h : s ≤ t) :
    jsRound (max 0 (min 100 ((s : ℚ) / 75 * 100))) ≤
      jsRound (max 0 (min 100 ((t : ℚ) / 75 * 100))) := by
  apply jsRound_mono
  have hc : (s : ℚ) ≤ (t : ℚ) := by exact_mod_cast h
  have e1 : (s : ℚ) / 75 * 100 = (s : ℚ) * (4 / 3) := by ring
  have e2 : (t : ℚ) / 75 * 100 = (t : ℚ) * (4 / 3) := by ring
  have hst : (s : ℚ) / 75 * 100 ≤ (t : ℚ) / 75 * 100 := by
    rw [e1, e2]; linarith
  exact max_le_max le_rfl (min_le_min le_rfl hst)

/-! ### Claim theorems -/

/-- C4: the status classifier maps every integer score to exactly one of the
three outcomes: `s >= 75` gives valid, `40 <= s < 75` gives risky, `s < 40`
gives invalid; in particular 75 is valid, 74 and 40 are risky, 39 is
invalid. -/
theorem getEmailStatus_classification :
    (∀ s : Int,
      (getEmailStatus s = .valid ↔ 75 ≤ s) ∧
      (getEmailStatus s = .risky ↔ 40 ≤ s ∧ s < 75) ∧
      (getEmailStatus s = .invalid ↔ s < 40)) ∧
    getEmailStatus 75 = .valid ∧ getEmailStatus 74 = .risky ∧
    getEmailStatus 40 = .risky ∧ getEmailStatus 39 = .invalid := by
  refine ⟨?_, by decide, by decide, by decide, by decide⟩
  intro s
  unfold getEmailStatus
  split_ifs with h1 h2 <;> refine ⟨?_, ?_, ?_⟩ <;> simp <;> omega

/-- Witness for `getEmailStatus_classification` at score 80. -/
theorem getEmailStatus_classification_witness : getEmailStatus 80 = .valid :=
  ((getEmailStatus_classification.1 80).1).mpr (by decide)

/-- C2: the scoring function returns `round(clamp(S, 0, 75) / 75 * 100)`
where `S` is the sum of the weights of the true signals; with only syntax
true the score is 27, and with the four positive signals true and the three
negative signals false the score is 100. -/
theorem calculateEmailScore_spec :
    (∀ a b c d e f g : Bool,
      calculateEmailScore ⟨a, b, c, d, e, f, g⟩ = specScore ⟨a, b, c, d, e, f, g⟩) ∧
    calculateEmailScore ⟨true, false, false, false, false, false, false⟩ = 27 ∧
    calculateEmailScore ⟨true, true, true, false, false, false, true⟩ = 100 := by
  refine ⟨?_, ?_, ?_⟩
  · intro a b c d e f g
    rw [calculateEmailScore_eq_jsRound]
    unfold specScore
    rw [clamp_norm_eq (rawScore_le _)]
  · rw [calculateEmailScore_eq_jsRound]
    have h20 : rawScore ⟨true, false, false, false, false, false, false⟩ = 20 := by
      decide
    rw [h20]
    norm_num [jsRound, min_def, max_def]
  · rw [calculateEmailScore_eq_jsRound]
    have h75 : rawScore ⟨true, true, true, false, false, false, true⟩ = 75 := by
      decide
    rw [h75]
    norm_num [jsRound, min_def, max_def]

/-- C10: the scoring function is monotone in each signal: turning a positive
signal (syntax, domain, mx, smtp) from false to true never decreases the
score, and turning a negative signal (disposable, roleBased, catchAll) from
false to true never increases it. -/
theorem calculateEmailScore_monotone :
    (∀ b c d e f g : Bool,
      calculateEmailScore ⟨false, b, c, d, e, f, g⟩ ≤
        calculateEmailScore ⟨true, b, c, d, e, f, g⟩) ∧
    (∀ a c d e f g : Bool,
      calculateEmailScore ⟨a, false, c, d, e, f, g⟩ ≤
        calculateEmailScore ⟨a, true, c, d, e, f, g⟩) ∧
    (∀ a b d e f g : Bool,
      calculateEmailScore ⟨a, b, false, d, e, f, g⟩ ≤
        calculateEmailScore ⟨a, b, true, d, e, f, g⟩) ∧
    (∀ a b c e f g : Bool,
      calculateEmailScore ⟨a, b, c, true, e, f, g⟩ ≤
        calculateEmailScore ⟨a, b, c, false, e, f, g⟩) ∧
    (∀ a b c d f g : Bool,
      calculateEmailScore ⟨a, b, c, d, true, f, g⟩ ≤
        calculateEmailScore ⟨a, b, c, d, false, f, g⟩) ∧
    (∀ a b c d e g : Bool,
      calculateEmailScore ⟨a, b, c, d, e, true, g⟩ ≤
        calculateEmailScore ⟨a, b, c, d, e, false, g⟩) ∧
    (∀ a b c d e f : Bool,
      calculateEmailScore ⟨a, b, c, d, e, f, false⟩ ≤
        calculateEmailScore ⟨a, b, c, d, e, f, true⟩) := by
  refine ⟨?_, ?_, ?_, ?_, ?_, ?_, ?_⟩ <;>
    (intro x1 x2 x3 x4 x5 x6 ;
     rw [calculateEmailScore_eq_jsRound, calculateEmailScore_eq_jsRound] ;
     apply normScore_mono ;
     simp only [rawScore, wSyntax, wDomain, wMx, wDisposable, wRoleBased,
       wCatchAll, wSmtp] ;
     split_ifs <;> omega)

/-- C5: whenever the Syntax Checker rejects the input, `validateEmail`
returns the all-false record with score 0 and status invalid, independently
of all probe outcomes; the Syntax Checker rejects the empty string,
a string without `@`, and a string with an empty local part and two `@`. -/
theorem validateEmail_shortCircuit :
    (∀ (rMx rCatchAll rSmtp : Bool) (email : String),
      validateEmailSyntax email = false →
      validateEmail rMx rCatchAll rSmtp email =
        { email := email, okSyntax := false, domain := false, mx := false,
          disposable := false, roleBased := false, catchAll := false,
          smtp := false, score := 0, status := .invalid }) ∧
    validateEmailSyntax ("") = false ∧
    validateEmailSyntax ("no-at-sign") = false ∧
    validateEmailSyntax ("@@double.com") = false := by
  refine ⟨?_, by decide, by decide, by decide⟩
  intro rMx rCatchAll rSmtp email h
  simp [validateEmail, h]

/-- Witness for `validateEmail_shortCircuit` at the empty string. -/
theorem validateEmail_shortCircuit_witness :
    validateEmail true true true ("") =
      { email := "", okSyntax := false, domain := false, mx := false,
        disposable := false, roleBased := false, catchAll := false,
        smtp := false, score := 0, status := .invalid } :=
  validateEmail_shortCircuit.1 true true true ("") (by decide)

/-- C8: a string without `@` is rejected by both the Syntax Checker and the
Domain Structural Checker. -/
theorem noAt_rejected (s : String) (h : s.data.contains '@' = false) :
    validateEmailSyntax s = false ∧ validateDomain s = false := by
  have hm : '@' ∉ s.data := fun hmem => by
    rw [contains_iff.mpr hmem] at h
    cases h
  constructor
  · unfold validateEmailSyntax
    rw [splitOnChar_of_not_mem hm]
  · unfold validateDomain
    rw [h]
    simp

/-- Witness for `noAt_rejected` at a concrete `@`-free string. -/
theorem noAt_rejected_witness :
    validateEmailSyntax ("no-at-sign") = false ∧ validateDomain ("no-at-sign") = false :=
  noAt_rejected ("no-at-sign") (by decide)

/-! ### Role Account Detector -/

theorem rolePrefixes_ne_nil : ∀ p ∈ roleBasedPrefixes, p.data ≠ [] := by decide

theorem rolePrefixes_lower : ∀ p ∈ roleBasedPrefixes, lowerL p.data = p.data := by
  decide

/-- Characterization of `isRoleBasedEmail`: it holds exactly when some listed
role matches the lower-cased local part (the part before the first `@`)
exactly, or as a prefix followed by `'.'` or `'-'`. -/
theorem isRoleBasedEmail_iff (email : String) :
    isRoleBasedEmail email = true ↔
      ∃ p ∈ roleBasedPrefixes, roleMatches (lowerL (upTo '@' email.data)) p := by
  simp only [isRoleBasedEmail, splitOnChar_getD0]
  by_cases h : lowerL (upTo '@' email.data) = []
  · rw [if_pos h]
    constructor
    · intro hf; cases hf
    · rintro ⟨p, hp, hm⟩
      exfalso
      rcases hm with he | hpre | hpre
      · exact rolePrefixes_ne_nil p hp (h ▸ he).symm
      · rw [h] at hpre
        have := List.prefix_nil.mp hpre
        simp at this
      · rw [h] at hpre
        have := List.prefix_nil.mp hpre
        simp at this
  · rw [if_neg h, List.any_eq_true]
    simp only [Bool.or_eq_true, beq_iff_eq, List.isPrefixOf_iff_prefix,
      roleMatches, or_assoc]

/-- C1 (amended): the Role Account Detector returns true for `admin@x.com`,
`admin.team@x.com`, `admin-bot@x.com` AND for `administrator@x.com` (because
`administrator` is itself a listed role prefix); in general a local part
matches exactly when it equals a listed prefix or starts with a listed
prefix followed by `'.'` or `'-'`, never by bare substring extension. -/
theorem roleDetector_c1 :
    isRoleBasedEmail ("admin@x.com") = true ∧
    isRoleBasedEmail ("admin.team@x.com") = true ∧
    isRoleBasedEmail ("admin-bot@x.com") = true ∧
    isRoleBasedEmail ("administrator@x.com") = true ∧
    ∀ email : String, isRoleBasedEmail email = true ↔
      ∃ p ∈ roleBasedPrefixes, roleMatches (lowerL (upTo '@' email.data)) p :=
  ⟨by decide, by decide, by decide, by decide, isRoleBasedEmail_iff⟩

/-- Witness for `roleDetector_c1`: its characterization applied at
`admin-bot@x.com`. -/
theorem roleDetector_c1_witness :
    ∃ p ∈ roleBasedPrefixes,
      roleMatches (lowerL (upTo '@' ("admin-bot@x.com").data)) p :=
  (roleDetector_c1.2.2.2.2 ("admin-bot@x.com")).mp (by decide)

/-- C1 counterexample to the claim as stated: the detector returns TRUE for
`administrator@x.com`, not false, because `administrator` is itself listed. -/
theorem roleDetector_administrator_true :
    isRoleBasedEmail ("administrator@x.com") = true := by decide

/-- C9: when the input contains no `@`, the whole string is the local part;
any `@`-free non-empty string that equals a role prefix or starts with one
followed by `'.'` or `'-'` is reported as role-based even though it is not a
well-formed email address. -/
theorem isRoleBasedEmail_noAt (s : String)
    (h1 : s.data.contains '@' = false) (h2 : s ≠ "")
    (h3 : ∃ p ∈ roleBasedPrefixes, roleMatches s.data p) :
    isRoleBasedEmail s = true := by
  have hm : '@' ∉ s.data := fun hmem => by
    rw [contains_iff.mpr hmem] at h1
    cases h1
  rw [isRoleBasedEmail_iff, upTo_of_not_mem hm]
  obtain ⟨p, hp, hmatch⟩ := h3
  refine ⟨p, hp, ?_⟩
  have hlowp : lowerL p.data = p.data := rolePrefixes_lower p hp
  have hdot : lowerL ['.'] = ['.'] := by decide
  have hdash : lowerL ['-'] = ['-'] := by decide
  rcases hmatch with he | hpre | hpre
  · left
    rw [he, hlowp]
  · right; left
    have hmap := lowerL_prefix hpre
    rw [lowerL_append, hlowp, hdot] at hmap
    exact hmap
  · right; right
    have hmap := lowerL_prefix hpre
    rw [lowerL_append, hlowp, hdash] at hmap
    exact hmap

/-- Witness for `isRoleBasedEmail_noAt` at the bare string `admin`. -/
theorem isRoleBasedEmail_noAt_witness : isRoleBasedEmail ("admin") = true :=
  isRoleBasedEmail_noAt ("admin") (by decide) (by decide)
    ⟨"admin", by decide, Or.inl (by decide)⟩

/-! ### Disposable Provider Detector -/

theorem disposableDomains_ne_nil : ∀ e ∈ disposableDomains, e.data ≠ [] := by
  decide

/-- Characterization of `isDisposableEmail`: it holds exactly when the
lower-cased field between the first and the second `'@'` equals one of the
(lower-case) deny-list entries. -/
theorem isDisposableEmail_iff (email : String) :
    isDisposableEmail email = true ↔
      ∃ e ∈ disposableDomains,
        lowerL (fieldAfterFirstAt email.data) = e.data := by
  unfold isDisposableEmail
  by_cases hm : '@' ∈ email.data
  · rw [splitOnChar_getD1_of_mem hm]
    have hfield : upTo '@' (past '@' email.data) = fieldAfterFirstAt email.data :=
      rfl
    rw [hfield]
    by_cases hd : lowerL (fieldAfterFirstAt email.data) = []
    · rw [if_pos hd]
      constructor
      · intro hf; cases hf
      · rintro ⟨e, he, heq⟩
        exact absurd (hd ▸ heq).symm (disposableDomains_ne_nil e he)
    · rw [if_neg hd]
      constructor
      · intro h
        refine ⟨String.mk (lowerL (fieldAfterFirstAt email.data)),
          containsStr_iff.mp h, rfl⟩
      · rintro ⟨e, he, heq⟩
        apply containsStr_iff.mpr
        have : String.mk (lowerL (fieldAfterFirstAt email.data)) = e :=
          String.ext heq
        rw [this]
        exact he
  · have hgd : (splitOnChar '@' email.data).getD 1 [] = [] := by
      rw [splitOnChar_of_not_mem hm]
      rfl
    rw [hgd]
    have hfield : fieldAfterFirstAt email.data = [] := by
      unfold fieldAfterFirstAt
      rw [past_of_not_mem hm]
      rfl
    rw [hfield]
    simp only [lowerL, List.map_nil, if_pos rfl]
    constructor
    · intro hf; cases hf
    · rintro ⟨e, he, heq⟩
      exact absurd heq.symm (disposableDomains_ne_nil e he)

/-- C6 (amended): the Disposable Provider Detector extracts the field between
the first and the second `'@'` (JavaScript `split('@')[1]`), lower-cases it,
and returns true exactly when it equals a deny-list entry (entries are
lower-case, so membership is case-insensitive); `user@mailinator.com` gives
true and `user@gmail.com` gives false. -/
theorem disposableDetector_c6 :
    (∀ email : String, isDisposableEmail email = true ↔
      ∃ e ∈ disposableDomains,
        lowerL (fieldAfterFirstAt email.data) = e.data) ∧
    isDisposableEmail ("user@mailinator.com") = true ∧
    isDisposableEmail ("user@gmail.com") = false :=
  ⟨isDisposableEmail_iff, by decide, by decide⟩

/-- Witness for `disposableDetector_c6` at `user@mailinator.com`. -/
theorem disposableDetector_c6_witness :
    ∃ e ∈ disposableDomains,
      lowerL (fieldAfterFirstAt ("user@mailinator.com").data) = e.data :=
  (disposableDetector_c6.1 ("user@mailinator.com")).mp (by decide)

/-- C6 counterexample to the claim as stated: on
`a@mailinator.com@gmail.com` the source detector returns true (it tests the
field between the two `'@'`, `mailinator.com`), while the claim's
after-the-LAST-`'@'` reading tests `gmail.com` and returns false. -/
theorem disposableDetector_c6_counterexample :
    isDisposableEmail ("a@mailinator.com@gmail.com") = true ∧
    claimDisposableCheck ("a@mailinator.com@gmail.com") = false := by
  constructor
  · decide
  · decide

/-! ### Domain Structural Checker -/

/-- Characterization of `validateDomain`: an `@` must be present, the field
between the first and the second `'@'` must be non-empty and consist of
dot-separated labels per the spec's grammar, and its last dot-separated
segment must have length at least 2 and be purely alphabetic. -/
theorem validateDomain_iff (email : String) :
    validateDomain email = true ↔
      email.data.contains '@' = true ∧
      fieldAfterFirstAt email.data ≠ [] ∧
      (∀ p ∈ splitOnChar '.' (fieldAfterFirstAt email.data), specLabel p) ∧
      2 ≤ ((splitOnChar '.' (fieldAfterFirstAt email.data)).getLastD []).length ∧
      ∀ c ∈ (splitOnChar '.' (fieldAfterFirstAt email.data)).getLastD [],
        c.isAlpha = true := by
  unfold validateDomain
  by_cases hm : '@' ∈ email.data
  · have hc : email.data.contains '@' = true := contains_iff.mpr hm
    rw [hc, splitOnChar_getD1_of_mem hm]
    have hfield : upTo '@' (past '@' email.data) = fieldAfterFirstAt email.data :=
      rfl
    rw [hfield]
    simp only [Bool.not_true, Bool.false_eq_true, if_false]
    by_cases hd : fieldAfterFirstAt email.data = []
    · rw [if_pos hd]
      simp [hd]
    · rw [if_neg hd]
      by_cases hall :
          (splitOnChar '.' (fieldAfterFirstAt email.data)).all validLabel = true
      · rw [hall]
        simp only [Bool.not_true, Bool.false_eq_true, if_false]
        rw [List.all_eq_true] at hall
        have hlabels : ∀ p ∈ splitOnChar '.' (fieldAfterFirstAt email.data),
            specLabel p :=
          fun p hp => (validLabel_iff_specLabel p).mp (hall p hp)
        constructor
        · intro h
          simp only [Bool.and_eq_true, decide_eq_true_eq, List.all_eq_true] at h
          exact ⟨trivial, hd, hlabels, h.1, h.2.2⟩
        · rintro ⟨-, -, -, h2, halpha⟩
          simp only [Bool.and_eq_true, decide_eq_true_eq, List.all_eq_true]
          refine ⟨h2, ?_, halpha⟩
          cases htld : (splitOnChar '.' (fieldAfterFirstAt email.data)).getLastD []
          · rw [htld] at h2
            simp at h2
          · simp [htld]
      · have hallf :
            (splitOnChar '.' (fieldAfterFirstAt email.data)).all validLabel
              = false := by
          cases hv : (splitOnChar '.' (fieldAfterFirstAt email.data)).all
              validLabel
          · rfl
          · exact absurd hv hall
        rw [hallf]
        simp only [Bool.not_false]
        rw [if_pos trivial]
        constructor
        · intro hf
          exact absurd hf Bool.false_ne_true
        · rintro ⟨-, -, hlabels, -, -⟩
          exact absurd (List.all_eq_true.mpr
            (fun p hp => (validLabel_iff_specLabel p).mpr (hlabels p hp))) hall
  · have hc : email.data.contains '@' = false := by
      cases hv : email.data.contains '@'
      · rfl
      · exact absurd (contains_iff.mp hv) hm
    rw [hc]
    simp only [Bool.not_false, if_true, Bool.false_eq_true, false_iff, not_and]
    intro hcontra
    cases hcontra

/-- C7 (amended): `validateDomain` validates the field between the first and
the second `'@'` (JavaScript `split('@')[1]`): false when there is no `@` or
that field is empty, and otherwise true exactly when the field consists of
dot-separated labels of 1-63 alphanumeric-with-internal-hyphen characters
(no leading or trailing hyphen) whose last segment has length at least 2 and
is purely alphabetic. -/
theorem domainChecker_c7 :
    ∀ email : String, validateDomain email = true ↔
      email.data.contains '@' = true ∧
      fieldAfterFirstAt email.data ≠ [] ∧
      (∀ p ∈ splitOnChar '.' (fieldAfterFirstAt email.data), specLabel p) ∧
      2 ≤ ((splitOnChar '.' (fieldAfterFirstAt email.data)).getLastD []).length ∧
      ∀ c ∈ (splitOnChar '.' (fieldAfterFirstAt email.data)).getLastD [],
        c.isAlpha = true :=
  validateDomain_iff

/-- Witness for `domainChecker_c7` at `u@ex.com`. -/
theorem domainChecker_c7_witness :
    ("u@ex.com").data.contains '@' = true ∧
    fieldAfterFirstAt ("u@ex.com").data ≠ [] ∧
    (∀ p ∈ splitOnChar '.' (fieldAfterFirstAt ("u@ex.com").data), specLabel p) ∧
    2 ≤ ((splitOnChar '.' (fieldAfterFirstAt ("u@ex.com").data)).getLastD []).length ∧
    ∀ c ∈ (splitOnChar '.' (fieldAfterFirstAt ("u@ex.com").data)).getLastD [],
      c.isAlpha = true :=
  (domainChecker_c7 ("u@ex.com")).mp (by decide)

/-- C7 counterexample to the claim as stated: on `a@b.co@x` the source
checker returns true (it validates the field `b.co` between the two `'@'`),
while the claim's everything-after-the-first-`'@'` reading validates
`b.co@x` and returns false. -/
theorem domainChecker_c7_counterexample :
    validateDomain ("a@b.co@x") = true ∧
    claimDomainCheck ("a@b.co@x") = false := by
  constructor
  · decide
  · decide

/-! ### Orchestrator gating -/

/-- C3: every result of `validateEmail` satisfies the gating invariant, for
every outcome of the three probes' random draws: smtp implies mx and
not-disposable, and mx or catchAll each imply the domain signal. -/
theorem validateEmail_gating (rMx rCatchAll rSmtp : Bool) (email : String) :
    ((validateEmail rMx rCatchAll rSmtp email).smtp = true →
      (validateEmail rMx rCatchAll rSmtp email).mx = true ∧
      (validateEmail rMx rCatchAll rSmtp email).disposable = false) ∧
    ((validateEmail rMx rCatchAll rSmtp email).mx = true →
      (validateEmail rMx rCatchAll rSmtp email).domain = true) ∧
    ((validateEmail rMx rCatchAll rSmtp email).catchAll = true →
      (validateEmail rMx rCatchAll rSmtp email).domain = true) := by
  cases hs : validateEmailSyntax email
  · simp [validateEmail, hs]
  · cases hd : validateDomain email
    · simp [validateEmail, hs, hd]
    · cases hdisp : isDisposableEmail email
      · simp only [validateEmail, hs, hd, hdisp]
        simp
        intro h _
        exact h
      · simp [validateEmail, hs, hd, hdisp]

/-- Witness for `validateEmail_gating`: at `a@gmail.com` with all-true
oracles the smtp signal is true, so mx is true and disposable is false. -/
theorem validateEmail_gating_witness :
    (validateEmail true true true ("a@gmail.com")).mx = true ∧
    (validateEmail true true true ("a@gmail.com")).disposable = false :=
  (validateEmail_gating true true true ("a@gmail.com")).1 (by decide)

end TrueReach
